import Mathlib

/-!
Verification model of the sharded, batching export pipeline in
`export/export.go` (package `export`).

The Go code is embedded shallowly:

* The Go struct `shard` has a channel field (`queue chan queueEntry`) and a
  plain boolean field (`pending`).  In Go, channels are reference values while
  booleans are plain values: copying a `shard` struct copies the channel
  *reference* but copies the boolean *by value*.  We model this precisely by
  letting the `queue` field be an identifier into a channel heap
  (`ExpState.chans : Nat → List QueueEntry`) while `pending` is a `Bool`
  stored in the struct itself.  `Run`'s line `shard := e.shards[index]` is a
  struct copy; writes to the copy's `pending` field do not reach the element
  of the `e.shards` slice.
* The drain loop in `Exporter.Run` (lines 306-374), the `send` closure
  (lines 279-301), `shard.get`, `shard.enqueue`, `Exporter.enqueue`,
  `Exporter.triggerNext` and `New` are translated function by function.
* The asynchronous send goroutine (spawned in the `send` closure) is modelled
  by a `Dispatch` placed on an `inflight` list; a separate `completeSend`
  transition (scheduled nondeterministically) performs the goroutine body:
  the backend `CreateTimeSeries` call, the `samplesSent` accounting and the
  release callbacks.  `completed` records the order in which backend calls
  are made (the backend call stream).
* The `sampleBuilder` lives in a different source file; `Export` therefore
  takes the list of (hash, sample) pairs the builder emitted as its input and
  performs the per-point `enqueue` plus the final `triggerNext`, exactly as
  the loop in `Exporter.Export` does.
* Prometheus counters are modelled as natural-number fields.
* The flush timer is modelled by a reset counter `timerResets` (each
  `timer.Reset(batchDelayMax)` increments it) together with the constant
  `batchDelayMaxSeconds`; timer expiry is the `timerStep` transition.
-/

set_option maxRecDepth 100000

/-- Number of shards by which series are bucketed (export.go line 90). -/
def shardCount : Nat := 512

/-- Buffer size for each individual shard (export.go line 92). -/
def shardBufferSize : Nat := 2048

/-- Maximum number of samples to pack into a batch sent to GCM (line 95). -/
def batchSizeMax : Nat := 200

/-- Time (in seconds) after which an accumulating batch is flushed
(export.go line 101, `batchDelayMax = 5 * time.Second`). -/
def batchDelayMaxSeconds : Nat := 5

/-- An opaque backend time-series point (`*monitoring_pb.TimeSeries`).
The pipeline never inspects the payload; we give it an identity for
stating properties. -/
structure Sample where
  id : Nat
deriving DecidableEq, Repr

/-- Go type `queueEntry` (export.go lines 390-393): a point paired with its
series fingerprint hash (a uint64; modelled as the corresponding Nat). -/
structure QueueEntry where
  hash : Nat
  sample : Sample
deriving DecidableEq, Repr

/-- Go struct `shard` (export.go lines 385-388).  `queue` is the channel
reference (an identifier into the channel heap); `pending` is a plain
boolean field, copied by value whenever the struct is copied. -/
structure shard where
  queue : Nat
  pending : Bool
deriving DecidableEq, Repr

instance : Inhabited shard := ⟨⟨0, false⟩⟩

/-- A batch handed to the asynchronous send goroutine: the captured `batch`
slice and the captured `closers` slice (each closer is the by-value captured
local `shard` variable of the drain loop iteration that created it).
In Go the batch slice holds only the samples; we retain each sample's
fingerprint hash alongside it (the `queueEntry` pairing established by the
builder) so that hash-level properties of backend calls can be stated. -/
structure Dispatch where
  batch : List QueueEntry
  closers : List shard
deriving DecidableEq, Repr

/-- The state of the exporter together with the drain loop's local state
(`batch`, `seen`, `closers`, `shardOffset`, the timer) and the observable
effects (counters, in-flight sends, the backend call stream). -/
structure ExpState where
  /-- `e.shards` : the slice of shard structs (length `shardCount`). -/
  shards : List shard
  /-- The channel heap: contents of each shard queue, by channel id. -/
  chans : Nat → List QueueEntry
  /-- The drain loop's accumulating `batch` slice (with hashes retained). -/
  batch : List QueueEntry
  /-- The drain loop's `seen` map: hashes already in the current batch. -/
  seen : List Nat
  /-- The drain loop's `closers` slice for the current batch. -/
  closers : List shard
  /-- The drain loop's rotating `shardOffset`. -/
  shardOffset : Nat
  /-- Dispatched batches whose send goroutine has not yet run. -/
  inflight : List Dispatch
  /-- Batches in the order their backend `CreateTimeSeries` call was made. -/
  completed : List Dispatch
  /-- Occupancy of the capacity-1 signal channel `e.nextc`. -/
  nextc : Bool
  /-- Number of `timer.Reset(batchDelayMax)` calls performed so far. -/
  timerResets : Nat
  /-- Counter `gcm_collector_samples_exported_total`. -/
  samplesExported : Nat
  /-- Counter `gcm_collector_samples_dropped_total`. -/
  samplesDropped : Nat
  /-- Counter `gcm_collector_samples_sent_total`. -/
  samplesSent : Nat
  /-- Counter `gcm_collector_send_iterations_total`. -/
  sendIterations : Nat
  /-- Counter `gcm_collector_shard_process_total`. -/
  shardProcess : Nat
  /-- Counter `gcm_collector_shard_process_pending_total`. -/
  shardProcessPending : Nat
  /-- Instrumentation: release callbacks that have been invoked, each
  recorded as the captured shard copy after the callback body ran. -/
  closersRun : List shard

/-- `newShard(shardBufferSize)` for each index (export.go lines 168-170,
395-397): shard `i` holds a reference to channel `i`, `pending` false. -/
def initShards : List shard :=
  (List.range shardCount).map (fun i => { queue := i, pending := false })

/-- The exporter state right after `New` and the initialization at the top
of `Run` (empty batch, empty `seen`, empty `closers`, `shardOffset = 0`,
freshly created timer counted as one arming). -/
def initState : ExpState where
  shards := initShards
  chans := fun _ => []
  batch := []
  seen := []
  closers := []
  shardOffset := 0
  inflight := []
  completed := []
  nextc := false
  timerResets := 1
  samplesExported := 0
  samplesDropped := 0
  samplesSent := 0
  sendIterations := 0
  shardProcess := 0
  shardProcessPending := 0
  closersRun := []

/-- `Exporter.triggerNext` (export.go lines 229-234): non-blocking send on
the capacity-1 channel; if it is already occupied, do nothing. -/
def triggerNext (st : ExpState) : ExpState :=
  { st with nextc := true }

/-- `shard.enqueue` (export.go lines 409-423): increment
`samples_exported_total`; offer the entry to the shard's queue without
blocking; on a full queue drop the point and increment
`samples_dropped_total`. -/
def shard.enqueue (st : ExpState) (s : shard) (hash : Nat) (sample : Sample) :
    ExpState :=
  let st1 := { st with samplesExported := st.samplesExported + 1 }
  let q := st1.chans s.queue
  if q.length < shardBufferSize then
    { st1 with chans := Function.update st1.chans s.queue (q ++ [⟨hash, sample⟩]) }
  else
    { st1 with samplesDropped := st1.samplesDropped + 1 }

/-- `Exporter.enqueue` (export.go lines 224-227): route the point to the
shard at index `hash % len(e.shards)`. -/
def Exporter.enqueue (st : ExpState) (hash : Nat) (sample : Sample) : ExpState :=
  let idx := hash % st.shards.length
  shard.enqueue st (st.shards.getD idx default) hash sample

/-- `Exporter.Export` (export.go lines 203-222): drive the builder over the
samples — the builder lives in another source file, so the sequence of
(hash, sample) pairs it emits is taken as the input — enqueue each emitted
point, then signal the drainer once via `triggerNext`. -/
def Export (st : ExpState) (emitted : List (Nat × Sample)) : ExpState :=
  triggerNext (emitted.foldl (fun s hp => Exporter.enqueue s hp.1 hp.2) st)

/-- `shard.get` (export.go lines 400-407): non-blocking receive of the
oldest entry of the shard's queue (through the copied struct's channel
reference, which aliases the original channel). -/
def shard.get (st : ExpState) (s : shard) : Option QueueEntry × ExpState :=
  match st.chans s.queue with
  | [] => (none, st)
  | e :: rest =>
      (some e, { st with chans := Function.update st.chans s.queue rest })

/-- The `send` closure of `Exporter.Run` (export.go lines 279-301): hand the
current `batch` and `closers` (captured by value) to an asynchronous send
goroutine, then reset the flush timer and re-initialize `batch`, `seen` and
`closers`. -/
def sendAction (st : ExpState) : ExpState :=
  { st with
    inflight := st.inflight ++ [⟨st.batch, st.closers⟩]
    timerResets := st.timerResets + 1
    seen := []
    closers := []
    batch := [] }

/-- The body of a release callback `func() { shard.pending = false }`
(export.go line 353): it assigns `false` to the `pending` field of the
by-value captured local `shard` variable.  The returned value is that
updated copy; the exporter's `shards` slice is not touched. -/
def runCloser (s : shard) : shard :=
  { s with pending := false }

/-- The body of the send goroutine (export.go lines 280-289) for the
in-flight dispatch at position `i`, as scheduled by the runtime: call
`e.send` (a failed call is only logged — `success` does not influence the
state), add `len(batch)` to `samples_sent_total`, and invoke every release
callback.  The batch is appended to the backend call stream `completed`
and is never re-dispatched. -/
def completeSend (st : ExpState) (i : Nat) (_success : Bool) : ExpState :=
  match st.inflight.get? i with
  | none => st
  | some d =>
      { st with
        inflight := st.inflight.eraseIdx i
        completed := st.completed ++ [d]
        samplesSent := st.samplesSent + d.batch.length
        closersRun := st.closersRun ++ d.closers.map runCloser }

/-- The inner loop `for len(batch) < cap(batch) { ... }` of the drain pass
(export.go lines 338-350), pulling from the (copied) shard `s`.  The fuel
`n` is instantiated with the length of the shard's queue; every iteration
either stops or consumes exactly one queue entry, so the fuel never runs
out before `shard.get` reports an empty queue. -/
def drainInner : Nat → ExpState → shard → ExpState
  | 0, st, _ => st
  | n + 1, st, s =>
      if st.batch.length < batchSizeMax then
        match shard.get st s with
        | (none, st1) => st1
        | (some e, st1) =>
            let st2 := if e.hash ∈ st1.seen then sendAction st1 else st1
            drainInner n
              { st2 with seen := e.hash :: st2.seen, batch := st2.batch ++ [e] } s
      else st

/-- One iteration of the outer drain loop (export.go lines 327-358) for the
already computed slice index `index`.  `shard := e.shards[index]` copies the
struct; the channel reference in the copy aliases the shard's queue, but the
`pending` writes (line 352 and the closer of line 353) hit only the copy,
which goes out of scope at the end of the iteration. -/
def drainShardAt (st : ExpState) (index : Nat) : ExpState :=
  let st0 := { st with shardProcess := st.shardProcess + 1 }
  let s := st0.shards.getD index default
  if s.pending then
    { st0 with shardProcessPending := st0.shardProcessPending + 1 }
  else
    let startLen := st0.batch.length
    let st1 := drainInner (st0.chans s.queue).length st0 s
    let st2 :=
      if startLen < st1.batch.length then
        { st1 with closers := st1.closers ++ [{ s with pending := true }] }
      else st1
    if st2.batch.length = batchSizeMax then sendAction st2 else st2

/-- The outer drain loop `for ; i < len(e.shards); i++` (export.go lines
326-358), returning the final value of `i` together with the state.  The
fuel is instantiated with `len(e.shards)`; the loop body contains no break,
so the loop ends only when `i` reaches `len(e.shards)`. -/
def drainLoopAux : Nat → Nat → ExpState → Nat × ExpState
  | 0, i, st => (i, st)
  | fuel + 1, i, st =>
      if i < st.shards.length then
        drainLoopAux fuel (i + 1)
          (drainShardAt st ((i + st.shardOffset) % st.shards.length))
      else (i, st)

/-- A full drain pass, the `case <-e.nextc` body after `sendIterations.Inc()`
(export.go lines 326-363): run the shard walk, re-signal the wake channel if
fewer than `len(e.shards)` shards were visited, then advance `shardOffset`
by `i` modulo the shard count. -/
def drainPass (st : ExpState) : ExpState :=
  let r := drainLoopAux st.shards.length 0 st
  let i := r.1
  let st1 := r.2
  let st2 := if i < st1.shards.length then triggerNext st1 else st1
  { st2 with shardOffset := (st2.shardOffset + i) % st2.shards.length }

/-- The `case <-e.nextc` arm of `Run`'s select (export.go lines 315-363):
receive from the capacity-1 channel, increment
`send_iterations_total`, then perform one drain pass. -/
def wakeStep (st : ExpState) : ExpState :=
  drainPass { st with nextc := false, sendIterations := st.sendIterations + 1 }

/-- The `case <-timer.C` arm of `Run`'s select (export.go lines 365-371):
with a non-empty batch, send; otherwise just rearm the timer for another
`batchDelayMax`. -/
def timerStep (st : ExpState) : ExpState :=
  if 0 < st.batch.length then sendAction st
  else { st with timerResets := st.timerResets + 1 }

/-- The six counters registered by `New` (export.go lines 144-153, in
registration order). -/
def counterNames : List String :=
  [ "gcm_collector_samples_exported_total"
  , "gcm_collector_samples_dropped_total"
  , "gcm_collector_samples_sent_total"
  , "gcm_collector_send_iterations_total"
  , "gcm_collector_shard_process_total"
  , "gcm_collector_shard_process_pending_total" ]

/-- Result of `New`: the returned exporter (or nil), the returned error
(or nil), and the metrics registry after the call (modelled as the list of
names registered with it). -/
structure NewResult where
  exporter : Option ExpState
  err : Option String
  registry : List String

/-- `New` (export.go lines 138-173): when a registry is supplied, the six
counters are registered with it via `reg.MustRegister`; only afterwards is
`opts.ProjectID` checked, and an empty project ID fails construction. -/
def New (registryPresent : Bool) (projectID : String) (registry : List String) :
    NewResult :=
  let registry1 := if registryPresent then registry ++ counterNames else registry
  if projectID = "" then
    { exporter := none, err := some "GCP project ID missing", registry := registry1 }
  else
    { exporter := some initState, err := none, registry := registry1 }

/-- The events the drain loop and its environment can perform: an `Export`
call with the points the builder emitted, a wake of the drainer (enabled
only when the signal channel is occupied), a flush-timer expiry, and the
runtime scheduling the send goroutine of an in-flight batch. -/
inductive Step : ExpState → ExpState → Prop
  | exp (st : ExpState) (emitted : List (Nat × Sample)) :
      Step st (Export st emitted)
  | wake (st : ExpState) (h : st.nextc = true) : Step st (wakeStep st)
  | timer (st : ExpState) : Step st (timerStep st)
  | complete (st : ExpState) (i : Nat) (success : Bool) :
      Step st (completeSend st i success)

/-- States reachable from the freshly constructed exporter. -/
def Reachable (st : ExpState) : Prop :=
  Relation.ReflTransGen Step initState st

/-- The batches handed to the backend: those whose send goroutine is still
pending and those whose `CreateTimeSeries` call has been made. -/
def dispatches (st : ExpState) : List Dispatch :=
  st.inflight ++ st.completed

/-- Invariant of the drain machinery: `seen` is exactly the set of hashes of
the points in the current batch; the batch is duplicate-free and within the
cap; every dispatched batch is duplicate-free and within the cap; every
shard queue is within its buffer size. -/
def DInv (st : ExpState) : Prop :=
  (∀ a, a ∈ st.seen ↔ a ∈ st.batch.map QueueEntry.hash) ∧
  (st.batch.map QueueEntry.hash).Nodup ∧
  st.batch.length ≤ batchSizeMax ∧
  (∀ d ∈ dispatches st,
    (d.batch.map QueueEntry.hash).Nodup ∧ d.batch.length ≤ batchSizeMax) ∧
  (∀ i, (st.chans i).length ≤ shardBufferSize)

/-- Global state invariant: the shards slice is never written after
construction (in particular every `pending` field stays `false`), the
rotating offset stays within range, between loop iterations the batch is
strictly below the cap, and `DInv` holds. -/
def StInv (st : ExpState) : Prop :=
  st.shards = initShards ∧
  st.shardOffset < shardCount ∧
  st.batch.length < batchSizeMax ∧
  DInv st

/-- Fields of the drain-loop state that the batch-assembly code never
writes, together with the timer/in-flight accounting: each `timer.Reset`
performed during batch assembly corresponds to exactly one dispatched
batch. -/
def DrainFrame (st st1 : ExpState) : Prop :=
  st1.shards = st.shards ∧
  st1.shardOffset = st.shardOffset ∧
  st1.nextc = st.nextc ∧
  st1.completed = st.completed ∧
  st1.sendIterations = st.sendIterations ∧
  st1.closersRun = st.closersRun ∧
  st1.samplesExported = st.samplesExported ∧
  st1.samplesDropped = st.samplesDropped ∧
  st1.samplesSent = st.samplesSent ∧
  st1.timerResets + st.inflight.length = st.timerResets + st1.inflight.length

/-- Scenario (C1): a single point with hash 0 is exported and one drain
pass runs.  The point is drained from shard 0 into the batch, so the claim
requires `e.shards[0].pending` to be `true` afterwards. -/
def c1st : ExpState := wakeStep (Export initState [(0, ⟨1⟩)])

/-- Scenario (C2), step 1: point `p1 = ⟨21⟩` with hash 0 is exported,
drained, and its batch dispatched by a timer flush.  The send goroutine has
not yet run. -/
def c2a : ExpState := timerStep (wakeStep (Export initState [(0, ⟨21⟩)]))

/-- Scenario (C2), step 2: point `p2 = ⟨22⟩` with the same hash 0 is
exported, drained (shard 0 is not skipped: its `pending` field is still
`false`), and its batch dispatched by a second timer flush.  Both batches
are now in flight. -/
def c2b : ExpState := timerStep (wakeStep (Export c2a [(0, ⟨22⟩)]))

/-- Scenario (C2), step 3: the runtime schedules the two send goroutines in
the opposite order: the batch holding `p2` performs its backend call first. -/
def c2c : ExpState := completeSend (completeSend c2b 1 true) 0 true

/-- Scenario (C3): two points of the same series (hash 0) forced into one
drain pass, plus a point of a different series (hash 3); the duplicate
triggers an early send. -/
def c3st : ExpState := wakeStep (Export initState [(0, ⟨31⟩), (0, ⟨32⟩), (3, ⟨33⟩)])

/-- Scenario (C9): a drain pass that drains a point; the claim requires the
next pass to start at a rotated shard offset. -/
def c9st : ExpState := wakeStep (Export initState [(0, ⟨91⟩)])

/-- A state with one in-flight dispatched batch (used to exercise the send
goroutine body). -/
def c7base : ExpState :=
  { initState with inflight := [⟨[⟨2, ⟨9⟩⟩], [⟨2, true⟩]⟩] }

/-- A state whose accumulating batch is non-empty (used to exercise the
flush-timer arm). -/
def c8full : ExpState :=
  { initState with batch := [⟨0, ⟨8⟩⟩], seen := [0] }

theorem batchSizeMax_pos : 0 < batchSizeMax := by decide

theorem initShards_length : initShards.length = shardCount := by
  simp [initShards]

theorem mem_initShards_pending {s : shard} (h : s ∈ initShards) :
    s.pending = false := by
  simp only [initShards, List.mem_map, List.mem_range] at h
  obtain ⟨i, _, rfl⟩ := h
  rfl

set_option maxRecDepth 10000 in
theorem initShards_getD {i : Nat} (h : i < shardCount) :
    initShards.getD i default = ⟨i, false⟩ := by
  simp only [initShards]
  rw [List.getD_eq_getElem?_getD, List.getElem?_map, List.getElem?_range h]
  rfl

theorem drainFrame_rfl (st : ExpState) : DrainFrame st st :=
  ⟨rfl, rfl, rfl, rfl, rfl, rfl, rfl, rfl, rfl, rfl⟩

theorem drainFrame_trans {st st1 st2 : ExpState}
    (h1 : DrainFrame st st1) (h2 : DrainFrame st1 st2) : DrainFrame st st2 := by
  obtain ⟨a1, b1, c1, d1, e1, f1, g1, i1, j1, k1⟩ := h1
  obtain ⟨a2, b2, c2, d2, e2, f2, g2, i2, j2, k2⟩ := h2
  exact ⟨a2.trans a1, b2.trans b1, c2.trans c1, d2.trans d1, e2.trans e1,
    f2.trans f1, g2.trans g1, i2.trans i1, j2.trans j1, by omega⟩

theorem sendAction_frame (st : ExpState) : DrainFrame st (sendAction st) := by
  refine ⟨rfl, rfl, rfl, rfl, rfl, rfl, rfl, rfl, rfl, ?_⟩
  simp [sendAction]
  omega

theorem drainInner_frame (n : Nat) :
    ∀ (st : ExpState) (s : shard), DrainFrame st (drainInner n st s) := by
  induction n with
  | zero => intro st s; exact drainFrame_rfl st
  | succ n ih =>
      intro st s
      simp only [drainInner]
      by_cases hb : st.batch.length < batchSizeMax
      · simp only [hb, if_true]
        cases hq : st.chans s.queue with
        | nil =>
            simp only [shard.get, hq]
            exact drainFrame_rfl st
        | cons e rest =>
            simp only [shard.get, hq]
            by_cases hm : e.hash ∈ st.seen
            · simp only [hm, if_true]
              have hmid : DrainFrame st (sendAction
                  { st with chans := Function.update st.chans s.queue rest }) :=
                drainFrame_trans
                  (⟨rfl, rfl, rfl, rfl, rfl, rfl, rfl, rfl, rfl, rfl⟩ :
                    DrainFrame st
                      { st with chans := Function.update st.chans s.queue rest })
                  (sendAction_frame _)
              refine drainFrame_trans ?_ (ih _ s)
              exact drainFrame_trans hmid
                ⟨rfl, rfl, rfl, rfl, rfl, rfl, rfl, rfl, rfl, rfl⟩
            · simp only [hm, if_false]
              refine drainFrame_trans ?_ (ih _ s)
              exact ⟨rfl, rfl, rfl, rfl, rfl, rfl, rfl, rfl, rfl, rfl⟩
      · simp only [hb, if_false]
        exact drainFrame_rfl st

theorem drainInner_shardProcess (n : Nat) :
    ∀ (st : ExpState) (s : shard),
      (drainInner n st s).shardProcess = st.shardProcess ∧
      (drainInner n st s).shardProcessPending = st.shardProcessPending := by
  induction n with
  | zero => intro st s; exact ⟨rfl, rfl⟩
  | succ n ih =>
      intro st s
      simp only [drainInner]
      by_cases hb : st.batch.length < batchSizeMax
      · simp only [hb, if_true]
        cases hq : st.chans s.queue with
        | nil => simp only [shard.get, hq]; exact ⟨by trivial, by trivial⟩
        | cons e rest =>
            simp only [shard.get, hq]
            by_cases hm : e.hash ∈ st.seen
            · simp only [hm, if_true]; exact ih _ s
            · simp only [hm, if_false]; exact ih _ s
      · simp only [hb, if_false]; exact ⟨by trivial, by trivial⟩

theorem drainShardAt_frame (st : ExpState) (k : Nat) :
    DrainFrame st (drainShardAt st k) := by
  have hstep : ∀ st2 : ExpState, DrainFrame st st2 →
      DrainFrame st
        (if st2.batch.length = batchSizeMax then sendAction st2 else st2) := by
    intro st2 h
    split
    · exact drainFrame_trans h (sendAction_frame st2)
    · exact h
  simp only [drainShardAt]
  split
  · exact ⟨rfl, rfl, rfl, rfl, rfl, rfl, rfl, rfl, rfl, rfl⟩
  · have hbase : DrainFrame st
        (drainInner
          (({ st with shardProcess := st.shardProcess + 1 } : ExpState).chans
            (st.shards.getD k default).queue).length
          { st with shardProcess := st.shardProcess + 1 }
          (st.shards.getD k default)) :=
      drainFrame_trans
        (⟨rfl, rfl, rfl, rfl, rfl, rfl, rfl, rfl, rfl, rfl⟩ :
          DrainFrame st { st with shardProcess := st.shardProcess + 1 })
        (drainInner_frame _ _ _)
    split
    · exact hstep _ (drainFrame_trans hbase
        ⟨rfl, rfl, rfl, rfl, rfl, rfl, rfl, rfl, rfl, rfl⟩)
    · exact hstep _ hbase

theorem drainShardAt_shardProcess (st : ExpState) (k : Nat) :
    (drainShardAt st k).shardProcess = st.shardProcess + 1 := by
  have hstep : ∀ st2 : ExpState,
      (if st2.batch.length = batchSizeMax then sendAction st2
        else st2).shardProcess = st2.shardProcess := by
    intro st2; split <;> rfl
  simp only [drainShardAt]
  split
  · rfl
  · have h1 := (drainInner_shardProcess
      (({ st with shardProcess := st.shardProcess + 1 } : ExpState).chans
        (st.shards.getD k default).queue).length
      { st with shardProcess := st.shardProcess + 1 }
      (st.shards.getD k default)).1
    split
    · rw [hstep]; simpa using h1
    · rw [hstep]; exact h1

theorem sendAction_dinv (st : ExpState) (h : DInv st) : DInv (sendAction st) := by
  obtain ⟨h1, h2, h3, h4, h5⟩ := h
  refine ⟨by simp [sendAction], by simp [sendAction], by simp [sendAction], ?_,
    by simpa [sendAction] using h5⟩
  intro d hd
  simp only [dispatches, sendAction, List.mem_append, List.mem_singleton] at hd
  rcases hd with (hd | rfl) | hd
  · exact h4 d (by simp [dispatches, List.mem_append, hd])
  · exact ⟨h2, h3⟩
  · exact h4 d (by simp [dispatches, List.mem_append, hd])

theorem dinv_push (st2 : ExpState) (e : QueueEntry) (h : DInv st2)
    (hmem : e.hash ∉ st2.seen) (hlen : st2.batch.length < batchSizeMax) :
    DInv { st2 with seen := e.hash :: st2.seen, batch := st2.batch ++ [e] } := by
  obtain ⟨h1, h2, h3, h4, h5⟩ := h
  have hnotb : e.hash ∉ st2.batch.map QueueEntry.hash :=
    fun hx => hmem ((h1 e.hash).mpr hx)
  refine ⟨?_, ?_, ?_, h4, h5⟩
  · intro a
    simp only [List.mem_cons, List.map_append, List.mem_append, List.map_cons,
      List.map_nil, List.mem_singleton]
    rw [h1 a]
    tauto
  · simp only [List.map_append, List.map_cons, List.map_nil]
    rw [List.nodup_append]
    exact ⟨h2, List.nodup_singleton _, List.disjoint_singleton.mpr hnotb⟩
  · simpa using hlen

theorem drainInner_dinv (n : Nat) :
    ∀ (st : ExpState) (s : shard), DInv st → DInv (drainInner n st s) := by
  induction n with
  | zero => intro st s h; exact h
  | succ n ih =>
      intro st s h
      simp only [drainInner]
      by_cases hb : st.batch.length < batchSizeMax
      · simp only [hb, if_true]
        cases hq : st.chans s.queue with
        | nil => simp only [shard.get, hq]; exact h
        | cons e rest =>
            simp only [shard.get, hq]
            have h1 : DInv { st with chans := Function.update st.chans s.queue rest } := by
              obtain ⟨a1, a2, a3, a4, a5⟩ := h
              refine ⟨a1, a2, a3, a4, ?_⟩
              intro i
              by_cases hi : i = s.queue
              · subst hi
                simp only [Function.update_same]
                have h6 := a5 s.queue
                rw [hq] at h6
                simp at h6
                omega
              · simpa [Function.update_noteq hi] using a5 i
            by_cases hm : e.hash ∈ st.seen
            · simp only [hm, if_true]
              refine ih _ s (dinv_push _ e (sendAction_dinv _ h1) (by simp [sendAction]) ?_)
              simpa [sendAction] using batchSizeMax_pos
            · simp only [hm, if_false]
              exact ih _ s (dinv_push _ e h1 hm hb)
      · simp only [hb, if_false]
        exact h

theorem drainShardAt_dinv (st : ExpState) (k : Nat) (h : DInv st) :
    DInv (drainShardAt st k) := by
  simp only [drainShardAt]
  split
  · exact h
  · have h1 := drainInner_dinv
      (({ st with shardProcess := st.shardProcess + 1 } : ExpState).chans
        (st.shards.getD k default).queue).length
      { st with shardProcess := st.shardProcess + 1 }
      (st.shards.getD k default) h
    split
    · split
      · exact sendAction_dinv _ h1
      · exact h1
    · split
      · exact sendAction_dinv _ h1
      · exact h1

theorem drainShardAt_batch_lt (st : ExpState) (k : Nat) (h : DInv st)
    (hlt : st.batch.length < batchSizeMax) :
    (drainShardAt st k).batch.length < batchSizeMax := by
  have hstep : ∀ st2 : ExpState, st2.batch.length ≤ batchSizeMax →
      (if st2.batch.length = batchSizeMax then sendAction st2
        else st2).batch.length < batchSizeMax := by
    intro st2 hle
    split
    · simpa [sendAction] using batchSizeMax_pos
    · next hne => exact Nat.lt_of_le_of_ne hle hne
  simp only [drainShardAt]
  split
  · exact hlt
  · have h1 := drainInner_dinv
      (({ st with shardProcess := st.shardProcess + 1 } : ExpState).chans
        (st.shards.getD k default).queue).length
      { st with shardProcess := st.shardProcess + 1 }
      (st.shards.getD k default) h
    have hle := h1.2.2.1
    split
    · exact hstep _ hle
    · exact hstep _ hle

theorem drainLoopAux_dinv (fuel : Nat) :
    ∀ (i : Nat) (st : ExpState), DInv st → st.batch.length < batchSizeMax →
      DInv (drainLoopAux fuel i st).2 ∧
      (drainLoopAux fuel i st).2.batch.length < batchSizeMax := by
  induction fuel with
  | zero => intro i st h hlt; exact ⟨h, hlt⟩
  | succ fuel ih =>
      intro i st h hlt
      simp only [drainLoopAux]
      split
      · exact ih _ _ (drainShardAt_dinv _ _ h) (drainShardAt_batch_lt _ _ h hlt)
      · exact ⟨h, hlt⟩

theorem drainLoopAux_frame (fuel : Nat) :
    ∀ (i : Nat) (st : ExpState), DrainFrame st (drainLoopAux fuel i st).2 := by
  induction fuel with
  | zero => intro i st; exact drainFrame_rfl st
  | succ fuel ih =>
      intro i st
      simp only [drainLoopAux]
      split
      · exact drainFrame_trans (drainShardAt_frame st _) (ih _ _)
      · exact drainFrame_rfl st

theorem drainLoopAux_count (fuel : Nat) :
    ∀ (i : Nat) (st : ExpState), i + fuel = st.shards.length →
      (drainLoopAux fuel i st).1 = st.shards.length ∧
      (drainLoopAux fuel i st).2.shardProcess = st.shardProcess + fuel := by
  induction fuel with
  | zero => intro i st h; exact ⟨h, by simp [drainLoopAux]⟩
  | succ fuel ih =>
      intro i st h
      have hi : i < st.shards.length := by omega
      simp only [drainLoopAux, hi, if_true]
      have hsh : (drainShardAt st ((i + st.shardOffset) % st.shards.length)).shards
          = st.shards :=
        (drainShardAt_frame st _).1
      have hr := ih (i + 1) (drainShardAt st ((i + st.shardOffset) % st.shards.length))
        (by rw [hsh]; omega)
      refine ⟨by rw [hr.1, hsh], ?_⟩
      rw [hr.2, drainShardAt_shardProcess]
      omega

theorem drainPass_facts (st : ExpState) (hs : st.shards = initShards) :
    (drainPass st).shardOffset = st.shardOffset % shardCount ∧
    (drainPass st).nextc = st.nextc ∧
    (drainPass st).shardProcess = st.shardProcess + shardCount ∧
    (drainPass st).shards = st.shards := by
  have hlen : st.shards.length = shardCount := by rw [hs, initShards_length]
  have hcount := drainLoopAux_count st.shards.length 0 st (by omega)
  obtain ⟨f1, f2, f3, f4, f5, f6, f7, f8, f9, f10⟩ :=
    drainLoopAux_frame st.shards.length 0 st
  simp only [drainPass]
  set r := drainLoopAux st.shards.length 0 st with hr
  have hrlen : r.2.shards.length = shardCount := by rw [f1, hlen]
  have hnotlt : ¬ (r.1 < r.2.shards.length) := by
    rw [hcount.1, hrlen, hlen]
    omega
  rw [if_neg hnotlt]
  refine ⟨?_, f3, ?_, f1⟩
  · show (r.2.shardOffset + r.1) % r.2.shards.length = st.shardOffset % shardCount
    rw [f2, hcount.1, hrlen, hlen]
    exact Nat.add_mod_right _ _
  · show r.2.shardProcess = st.shardProcess + shardCount
    rw [hcount.2, hlen]

theorem drainPass_send_accounting (st : ExpState) :
    (drainPass st).completed = st.completed ∧
    (drainPass st).timerResets + st.inflight.length
      = st.timerResets + (drainPass st).inflight.length := by
  obtain ⟨f1, f2, f3, f4, f5, f6, f7, f8, f9, f10⟩ :=
    drainLoopAux_frame st.shards.length 0 st
  simp only [drainPass]
  set r := drainLoopAux st.shards.length 0 st with hr
  split
  · exact ⟨f4, f10⟩
  · exact ⟨f4, f10⟩

theorem drainPass_inv (st : ExpState) (hi : StInv st) : StInv (drainPass st) := by
  obtain ⟨hs, ho, hlt, hd⟩ := hi
  have hdl := drainLoopAux_dinv st.shards.length 0 st hd hlt
  have hf1 := (drainLoopAux_frame st.shards.length 0 st).1
  simp only [drainPass]
  set r := drainLoopAux st.shards.length 0 st with hr
  have hrs : r.2.shards = initShards := by rw [hf1, hs]
  have hrlen : r.2.shards.length = shardCount := by rw [hrs, initShards_length]
  split
  · refine ⟨hrs, ?_, hdl.2, hdl.1⟩
    show (r.2.shardOffset + r.1) % r.2.shards.length < shardCount
    rw [hrlen]
    exact Nat.mod_lt _ (by decide)
  · refine ⟨hrs, ?_, hdl.2, hdl.1⟩
    show (r.2.shardOffset + r.1) % r.2.shards.length < shardCount
    rw [hrlen]
    exact Nat.mod_lt _ (by decide)

theorem wakeStep_send_accounting (st : ExpState) :
    (wakeStep st).completed = st.completed ∧
    (wakeStep st).timerResets + st.inflight.length
      = st.timerResets + (wakeStep st).inflight.length :=
  drainPass_send_accounting
    { st with nextc := false, sendIterations := st.sendIterations + 1 }

theorem wakeStep_facts (st : ExpState) (hs : st.shards = initShards)
    (ho : st.shardOffset < shardCount) :
    (wakeStep st).shardOffset = st.shardOffset ∧
    (wakeStep st).nextc = false ∧
    (wakeStep st).shardProcess = st.shardProcess + shardCount ∧
    (wakeStep st).shards = st.shards := by
  have h := drainPass_facts
    { st with nextc := false, sendIterations := st.sendIterations + 1 } hs
  exact ⟨h.1.trans (Nat.mod_eq_of_lt ho), h.2.1, h.2.2.1, h.2.2.2⟩

theorem wakeStep_inv (st : ExpState) (hi : StInv st) : StInv (wakeStep st) := by
  obtain ⟨hs, ho, hlt, hd⟩ := hi
  exact drainPass_inv
    { st with nextc := false, sendIterations := st.sendIterations + 1 }
    ⟨hs, ho, hlt, hd⟩

theorem shardEnqueue_inv (st : ExpState) (s : shard) (h : Nat) (p : Sample)
    (hi : StInv st) : StInv (shard.enqueue st s h p) := by
  obtain ⟨hs, ho, hlt, h1, h2, h3, h4, h5⟩ := hi
  simp only [shard.enqueue]
  split
  · next hq =>
      have hq2 : (st.chans s.queue).length < shardBufferSize := hq
      refine ⟨hs, ho, hlt, h1, h2, h3, h4, ?_⟩
      intro i
      show (Function.update st.chans s.queue
        (st.chans s.queue ++ [⟨h, p⟩]) i).length ≤ shardBufferSize
      by_cases hi2 : i = s.queue
      · subst hi2
        simp only [Function.update_same, List.length_append, List.length_singleton]
        omega
      · rw [Function.update_noteq hi2]
        exact h5 i
  · exact ⟨hs, ho, hlt, h1, h2, h3, h4, h5⟩

theorem foldlEnqueue_inv (l : List (Nat × Sample)) :
    ∀ st : ExpState, StInv st →
      StInv (l.foldl (fun s2 hp => Exporter.enqueue s2 hp.1 hp.2) st) := by
  induction l with
  | nil => intro st h; exact h
  | cons a l ih =>
      intro st h
      simp only [List.foldl_cons]
      exact ih _ (shardEnqueue_inv _ _ _ _ h)

theorem export_inv (st : ExpState) (emitted : List (Nat × Sample))
    (hi : StInv st) : StInv (Export st emitted) := by
  have h := foldlEnqueue_inv emitted st hi
  exact ⟨h.1, h.2.1, h.2.2.1, h.2.2.2⟩

theorem timerStep_inv (st : ExpState) (hi : StInv st) : StInv (timerStep st) := by
  obtain ⟨hs, ho, hlt, hd⟩ := hi
  simp only [timerStep]
  split
  · exact ⟨hs, ho, by simpa [sendAction] using batchSizeMax_pos, sendAction_dinv st hd⟩
  · exact ⟨hs, ho, hlt, hd⟩

theorem completeSend_inv (st : ExpState) (i : Nat) (success : Bool)
    (hi : StInv st) : StInv (completeSend st i success) := by
  obtain ⟨hs, ho, hlt, h1, h2, h3, h4, h5⟩ := hi
  simp only [completeSend]
  split
  · exact ⟨hs, ho, hlt, h1, h2, h3, h4, h5⟩
  · next d hg =>
      refine ⟨hs, ho, hlt, h1, h2, h3, ?_, h5⟩
      intro d2 hd2
      simp only [dispatches, List.mem_append, List.mem_singleton] at hd2
      rcases hd2 with hd2 | hd2 | rfl
      · refine h4 d2 ?_
        simp only [dispatches, List.mem_append]
        exact Or.inl ((List.eraseIdx_sublist _ _).subset hd2)
      · exact h4 d2 (by simp [dispatches, List.mem_append, hd2])
      · refine h4 d2 ?_
        simp only [dispatches, List.mem_append]
        exact Or.inl (List.get?_mem hg)

set_option maxRecDepth 10000 in
theorem stinv_init : StInv initState := by
  refine ⟨rfl, by decide, by decide, ?_, ?_, ?_, ?_, ?_⟩
  · intro a; simp [initState]
  · simp [initState]
  · simp [initState]
  · intro d hd; simp [dispatches, initState] at hd
  · intro i; simp [initState]

theorem stinv_step {st st2 : ExpState} (h : Step st st2) (hi : StInv st) :
    StInv st2 := by
  cases h with
  | exp emitted => exact export_inv st emitted hi
  | wake hn => exact wakeStep_inv st hi
  | timer => exact timerStep_inv st hi
  | complete i success => exact completeSend_inv st i success hi

theorem stinv_reachable {st : ExpState} (h : Reachable st) : StInv st := by
  have h2 : Relation.ReflTransGen Step initState st := h
  induction h2 with
  | refl => exact stinv_init
  | tail hab hbc ih => exact stinv_step hbc (ih hab)

theorem drainLoopAux_step (fuel i : Nat) (st : ExpState)
    (h : i < st.shards.length) :
    drainLoopAux (fuel + 1) i st
      = drainLoopAux fuel (i + 1)
          (drainShardAt st ((i + st.shardOffset) % st.shards.length)) := by
  simp only [drainLoopAux, h, if_true]

theorem drainShardAt_empty (st : ExpState) (k : Nat)
    (hsd : st.shards.getD k default = ⟨k, false⟩)
    (hq : st.chans k = [])
    (hlt : st.batch.length < batchSizeMax) :
    drainShardAt st k = { st with shardProcess := st.shardProcess + 1 } := by
  have hblt : st.batch.length < batchSizeMax := hlt
  simp only [drainShardAt, hsd, Bool.false_eq_true, if_false, hq,
    List.length_nil, drainInner, lt_irrefl, Nat.ne_of_lt hlt, if_false]

theorem drainShardAt_single (st : ExpState) (k : Nat) (e : QueueEntry)
    (hsd : st.shards.getD k default = ⟨k, false⟩)
    (hq : st.chans k = [e])
    (hseen : e.hash ∉ st.seen)
    (hlen : st.batch.length + 1 < batchSizeMax) :
    drainShardAt st k =
      { st with
        shardProcess := st.shardProcess + 1
        chans := Function.update st.chans k []
        seen := e.hash :: st.seen
        batch := st.batch ++ [e]
        closers := st.closers ++ [{ queue := k, pending := true }] } := by
  have hblt : st.batch.length < batchSizeMax := by omega
  simp only [drainShardAt, hsd, Bool.false_eq_true, if_false, hq,
    List.length_cons, List.length_nil, drainInner, shard.get, hblt, if_true,
    hseen, List.length_append, List.length_singleton]
  rw [if_pos (by omega : st.batch.length < st.batch.length + 1)]
  simp only [List.length_append, List.length_singleton]
  rw [if_neg (by omega : ¬ (st.batch.length + 1 = batchSizeMax))]

set_option maxRecDepth 40000 in
theorem drainLoopAux_allEmpty (fuel : Nat) :
    ∀ (i : Nat) (st : ExpState),
      st.shards = initShards →
      i + fuel = st.shards.length →
      (∀ j, st.chans j = []) →
      st.batch.length < batchSizeMax →
      drainLoopAux fuel i st
        = (st.shards.length,
            { st with shardProcess := st.shardProcess + fuel }) := by
  induction fuel with
  | zero =>
      intro i st hs h hc hlt
      rw [← h]
      rfl
  | succ fuel ih =>
      intro i st hs h hc hlt
      have hi : i < st.shards.length := by omega
      have hlen2 : st.shards.length = shardCount := by rw [hs, initShards_length]
      have hsd : st.shards.getD ((i + st.shardOffset) % st.shards.length) default
          = ⟨(i + st.shardOffset) % st.shards.length, false⟩ := by
        rw [hlen2, hs]
        exact initShards_getD (Nat.mod_lt _ (by decide))
      have hone := drainShardAt_empty st ((i + st.shardOffset) % st.shards.length)
        hsd (hc _) hlt
      rw [drainLoopAux_step fuel i st hi, hone,
        show st.shardProcess + (fuel + 1) = st.shardProcess + 1 + fuel from by omega]
      exact ih (i + 1) { st with shardProcess := st.shardProcess + 1 }
        hs (by show i + 1 + fuel = st.shards.length; omega) hc hlt

set_option maxRecDepth 40000 in
theorem drainPass_single (st : ExpState) (e : QueueEntry)
    (hs : st.shards = initShards)
    (hoff : st.shardOffset = 0)
    (hq0 : st.chans 0 = [e])
    (hqj : ∀ j, j ≠ 0 → st.chans j = [])
    (hseen : e.hash ∉ st.seen)
    (hlen : st.batch.length + 1 < batchSizeMax) :
    drainPass st =
      { st with
        shardProcess := st.shardProcess + shardCount
        chans := Function.update st.chans 0 []
        seen := e.hash :: st.seen
        batch := st.batch ++ [e]
        closers := st.closers ++ [{ queue := 0, pending := true }] } := by
  have hlen512 : st.shards.length = shardCount := by rw [hs, initShards_length]
  have hsd0 : st.shards.getD 0 default = ⟨0, false⟩ := by
    rw [hs]; exact initShards_getD (by decide)
  have hfirst := drainShardAt_single st 0 e hsd0 hq0 hseen hlen
  have hallempty := drainLoopAux_allEmpty 511 1
    { st with
      shardProcess := st.shardProcess + 1
      chans := Function.update st.chans 0 []
      seen := e.hash :: st.seen
      batch := st.batch ++ [e]
      closers := st.closers ++ [{ queue := 0, pending := true }] }
    hs
    (by show 1 + 511 = st.shards.length; rw [hlen512]; decide)
    (by
      intro j
      show Function.update st.chans 0 [] j = []
      by_cases hj : j = 0
      · subst hj; rw [Function.update_same]
      · rw [Function.update_noteq hj]; exact hqj j hj)
    (by
      show (st.batch ++ [e]).length < batchSizeMax
      rw [List.length_append, List.length_singleton]
      omega)
  simp only [drainPass]
  rw [hlen512]
  rw [show drainLoopAux shardCount 0 st
      = drainLoopAux 511 (0 + 1)
          (drainShardAt st ((0 + st.shardOffset) % st.shards.length))
      from drainLoopAux_step 511 0 st (by rw [hlen512]; decide)]
  rw [show (0 + st.shardOffset) % st.shards.length = 0 from by
    rw [hoff, hlen512]; decide]
  rw [hfirst]
  simp only [Nat.zero_add]
  rw [hallempty]
  simp only [lt_irrefl, if_false]
  rw [show (({ st with
        shardProcess := st.shardProcess + 1
        chans := Function.update st.chans 0 []
        seen := e.hash :: st.seen
        batch := st.batch ++ [e]
        closers := st.closers ++ [{ queue := 0, pending := true }] } :
      ExpState).shardOffset + st.shards.length)
      % st.shards.length = st.shardOffset from by
    show (st.shardOffset + st.shards.length) % st.shards.length = st.shardOffset
    rw [hlen512, Nat.add_mod_right, Nat.mod_eq_of_lt (by rw [hoff]; decide)]]
  rw [show st.shardProcess + 1 + 511 = st.shardProcess + shardCount from by
    show st.shardProcess + 1 + 511 = st.shardProcess + 512
    omega]

set_option maxRecDepth 40000 in
theorem wakeStep_single (st : ExpState) (e : QueueEntry)
    (hs : st.shards = initShards)
    (hoff : st.shardOffset = 0)
    (hq0 : st.chans 0 = [e])
    (hqj : ∀ j, j ≠ 0 → st.chans j = [])
    (hseen : e.hash ∉ st.seen)
    (hlen : st.batch.length + 1 < batchSizeMax) :
    wakeStep st =
      { st with
        nextc := false
        sendIterations := st.sendIterations + 1
        shardProcess := st.shardProcess + shardCount
        chans := Function.update st.chans 0 []
        seen := e.hash :: st.seen
        batch := st.batch ++ [e]
        closers := st.closers ++ [{ queue := 0, pending := true }] } := by
  exact drainPass_single
    { st with nextc := false, sendIterations := st.sendIterations + 1 }
    e hs hoff hq0 hqj hseen hlen

theorem timerStep_send (st : ExpState) (h : 0 < st.batch.length) :
    timerStep st = sendAction st := by
  simp only [timerStep, h, if_true]

set_option maxRecDepth 40000 in
theorem export_single_eval (st : ExpState) (h : Nat) (p : Sample)
    (hs : st.shards = initShards)
    (hroom : (st.chans (h % shardCount)).length < shardBufferSize) :
    Export st [(h, p)] =
      { st with
        nextc := true
        samplesExported := st.samplesExported + 1
        chans := Function.update st.chans (h % shardCount)
          (st.chans (h % shardCount) ++ [⟨h, p⟩]) } := by
  have hlen512 : st.shards.length = shardCount := by rw [hs, initShards_length]
  have hsd : st.shards.getD (h % st.shards.length) default
      = ⟨h % shardCount, false⟩ := by
    rw [hlen512, hs]
    exact initShards_getD (Nat.mod_lt _ (by decide))
  show triggerNext (Exporter.enqueue st h p) = _
  simp only [Exporter.enqueue, hsd, shard.enqueue, triggerNext]
  rw [if_pos hroom]

set_option maxRecDepth 40000 in
theorem exportWake_single (st : ExpState) (p : Sample)
    (hs : st.shards = initShards)
    (hoff : st.shardOffset = 0)
    (hchans : ∀ j, st.chans j = [])
    (hseen0 : (0 : Nat) ∉ st.seen)
    (hblen : st.batch.length + 1 < batchSizeMax) :
    wakeStep (Export st [(0, p)]) =
      { st with
        nextc := false
        samplesExported := st.samplesExported + 1
        sendIterations := st.sendIterations + 1
        shardProcess := st.shardProcess + shardCount
        chans := Function.update
          (Function.update st.chans 0 (st.chans 0 ++ [⟨0, p⟩])) 0 []
        seen := 0 :: st.seen
        batch := st.batch ++ [⟨0, p⟩]
        closers := st.closers ++ [{ queue := 0, pending := true }] } := by
  have hroom : (st.chans (0 % shardCount)).length < shardBufferSize := by
    rw [hchans]; decide
  have hE := export_single_eval st 0 p hs hroom
  have hW := wakeStep_single (Export st [(0, p)]) ⟨0, p⟩
    (by rw [hE]; exact hs)
    (by rw [hE]; exact hoff)
    (by rw [hE]
        show Function.update st.chans (0 % shardCount)
          (st.chans (0 % shardCount) ++ [⟨0, p⟩]) 0 = [⟨0, p⟩]
        rw [Nat.zero_mod, Function.update_same, hchans]
        rfl)
    (by intro j hj
        rw [hE]
        show Function.update st.chans (0 % shardCount)
          (st.chans (0 % shardCount) ++ [⟨0, p⟩]) j = []
        rw [Nat.zero_mod, Function.update_noteq hj]
        exact hchans j)
    (by rw [hE]; exact hseen0)
    (by rw [hE]; exact hblen)
  rw [hW, hE]
  rfl

set_option maxRecDepth 40000 in
theorem exportWakeTimer_round (st : ExpState) (p : Sample)
    (hs : st.shards = initShards)
    (hoff : st.shardOffset = 0)
    (hchans : ∀ j, st.chans j = [])
    (hseen0 : (0 : Nat) ∉ st.seen)
    (hblen : st.batch.length + 1 < batchSizeMax) :
    timerStep (wakeStep (Export st [(0, p)])) =
      { st with
        nextc := false
        samplesExported := st.samplesExported + 1
        sendIterations := st.sendIterations + 1
        shardProcess := st.shardProcess + shardCount
        timerResets := st.timerResets + 1
        seen := []
        closers := []
        batch := []
        chans := Function.update
          (Function.update st.chans 0 (st.chans 0 ++ [⟨0, p⟩])) 0 []
        inflight := st.inflight ++
          [⟨st.batch ++ [⟨0, p⟩], st.closers ++ [{ queue := 0, pending := true }]⟩] } := by
  rw [exportWake_single st p hs hoff hchans hseen0 hblen]
  rw [timerStep_send _ (by
    show 0 < (st.batch ++ [(⟨0, p⟩ : QueueEntry)]).length
    rw [List.length_append, List.length_singleton]
    omega)]
  rfl

/-- C1: Pending discipline is broken by the code.  In the scenario of
`c1st` a drain pass added the point of shard 0 to the batch (the batch
holds it and a release callback was appended to `closers`), yet every
`pending` field in `e.shards` is still `false`: `shard := e.shards[index]`
(export.go line 330) copies the struct by value, so `shard.pending = true`
(line 352) and the callback of line 353 mutate only the copy.  The claim
requires the shard's flag to become `true` and the shard to be skipped;
instead no shard is ever skipped (`shard_process_pending_total` stays 0),
and more than one in-flight batch can contain points of one shard. -/
theorem claim_C1_pending_flag_never_set :
    c1st.batch = [⟨0, ⟨1⟩⟩] ∧
    c1st.closers = [{ queue := 0, pending := true }] ∧
    (∀ s ∈ c1st.shards, s.pending = false) ∧
    c1st.shardProcessPending = 0 := by
  have hw := exportWake_single initState ⟨1⟩ rfl rfl (fun j => rfl)
    (by decide) (by decide)
  have hc1 : c1st = _ := hw
  refine ⟨?_, ?_, ?_, ?_⟩
  · rw [hc1]; rfl
  · rw [hc1]; rfl
  · intro s hs2
    rw [hc1] at hs2
    have hs3 : s ∈ initShards := hs2
    exact mem_initShards_pending hs3
  · rw [hc1]; rfl

/-- C2: Per-series ordering is violated by the code.  Two points `p1`
(sample 21) and `p2` (sample 22) with the same fingerprint hash 0 are
exported in order `p1, p2` in separate drain passes.  Because the
`pending` flag is set on a by-value copy of the shard struct (the bug of
C1), shard 0 is not skipped while the first batch is still in flight, so
both batches end up in flight simultaneously, each holding a hash-0 point;
the spawned send goroutines are unordered, and in the recorded schedule
the backend `CreateTimeSeries` stream receives `p2`'s batch before `p1`'s.
The whole run is a reachable execution of the step relation. -/
theorem claim_C2_per_series_order_violated :
    c2b.inflight =
      [⟨[⟨0, ⟨21⟩⟩], [{ queue := 0, pending := true }]⟩,
       ⟨[⟨0, ⟨22⟩⟩], [{ queue := 0, pending := true }]⟩] ∧
    c2c.completed.map (fun d => d.batch.map (fun e2 => e2.sample.id))
      = [[22], [21]] ∧
    Reachable c2c := by
  have h1 := exportWakeTimer_round initState ⟨21⟩ rfl rfl (fun j => rfl)
    (by decide) (by decide)
  have hc2a : c2a = _ := h1
  have hs2 : c2a.shards = initShards := by rw [hc2a]; rfl
  have hoff2 : c2a.shardOffset = 0 := by rw [hc2a]; rfl
  have hchans2 : ∀ j, c2a.chans j = [] := by
    intro j
    rw [hc2a]
    show Function.update (Function.update initState.chans 0
      (initState.chans 0 ++ [⟨0, ⟨21⟩⟩])) 0 [] j = []
    by_cases hj : j = 0
    · subst hj; rw [Function.update_same]
    · rw [Function.update_noteq hj, Function.update_noteq hj]; rfl
  have hseen2 : (0 : Nat) ∉ c2a.seen := by rw [hc2a]; simp
  have hblen2 : c2a.batch.length + 1 < batchSizeMax := by rw [hc2a]; decide
  have h2 := exportWakeTimer_round c2a ⟨22⟩ hs2 hoff2 hchans2 hseen2 hblen2
  have hc2b : c2b = _ := h2
  refine ⟨?_, ?_, ?_⟩
  · rw [hc2b, hc2a]; rfl
  · show (completeSend (completeSend c2b 1 true) 0 true).completed.map
        (fun d => d.batch.map (fun e2 => e2.sample.id)) = [[22], [21]]
    rw [hc2b, hc2a]
    rfl
  · have r1 : Reachable (Export initState [(0, ⟨21⟩)]) :=
      Relation.ReflTransGen.single (Step.exp _ _)
    have r2 : Reachable (wakeStep (Export initState [(0, ⟨21⟩)])) :=
      r1.tail (Step.wake _ rfl)
    have r3 : Reachable c2a := r2.tail (Step.timer _)
    have r4 : Reachable (Export c2a [(0, ⟨22⟩)]) := r3.tail (Step.exp _ _)
    have r5 : Reachable (wakeStep (Export c2a [(0, ⟨22⟩)])) :=
      r4.tail (Step.wake _ rfl)
    have r6 : Reachable c2b := r5.tail (Step.timer _)
    have r7 : Reachable (completeSend c2b 1 true) :=
      r6.tail (Step.complete _ 1 true)
    exact r7.tail (Step.complete _ 0 true)

/-- C3: Batch uniqueness.  In every reachable state the accumulating batch
contains no two points with the same fingerprint hash, `seen` is exactly
the set of hashes of the points in the batch (populated and cleared
together; the duplicate branch of the inner drain loop sends the batch
before the new point enters the freshly emptied batch), and no dispatched
backend `CreateTimeSeries` batch contains two points with the same hash. -/
theorem claim_C3_batch_uniqueness (st : ExpState) (h : Reachable st) :
    (st.batch.map QueueEntry.hash).Nodup ∧
    (∀ a, a ∈ st.seen ↔ a ∈ st.batch.map QueueEntry.hash) ∧
    (∀ d ∈ dispatches st, (d.batch.map QueueEntry.hash).Nodup) := by
  obtain ⟨h1, h2, h3, s1, s2, s3, s4, s5⟩ := stinv_reachable h
  exact ⟨s2, s1, fun d hd => (s4 d hd).1⟩

theorem claim_C3_witness :
    (c3st.batch.map QueueEntry.hash).Nodup ∧
    (∀ a, a ∈ c3st.seen ↔ a ∈ c3st.batch.map QueueEntry.hash) ∧
    (∀ d ∈ dispatches c3st, (d.batch.map QueueEntry.hash).Nodup) :=
  claim_C3_batch_uniqueness c3st
    (Relation.ReflTransGen.tail
      (Relation.ReflTransGen.single (Step.exp _ _)) (Step.wake _ rfl))

/-- C4: Batch cap.  `batchSizeMax` is 200; in every reachable state the
accumulating batch holds at most 200 points and every dispatched backend
batch carries at most 200 points; and whenever the batch fills up to
exactly 200 during the processing of a shard, it is dispatched within that
same loop iteration (the batch observed after any `drainShardAt` is
strictly below the cap). -/
theorem claim_C4_batch_cap :
    batchSizeMax = 200 ∧
    (∀ st : ExpState, Reachable st →
      st.batch.length ≤ batchSizeMax ∧
      ∀ d ∈ dispatches st, d.batch.length ≤ batchSizeMax) ∧
    (∀ (st : ExpState) (k : Nat), DInv st → st.batch.length < batchSizeMax →
      (drainShardAt st k).batch.length < batchSizeMax) := by
  refine ⟨rfl, ?_, ?_⟩
  · intro st h
    obtain ⟨h1, h2, h3, s1, s2, s3, s4, s5⟩ := stinv_reachable h
    exact ⟨s3, fun d hd => (s4 d hd).2⟩
  · intro st k hd hlt
    exact drainShardAt_batch_lt st k hd hlt

theorem claim_C4_witness :
    (initState.batch.length ≤ batchSizeMax ∧
      ∀ d ∈ dispatches initState, d.batch.length ≤ batchSizeMax) ∧
    (drainShardAt initState 0).batch.length < batchSizeMax :=
  ⟨claim_C4_batch_cap.2.1 initState Relation.ReflTransGen.refl,
   claim_C4_batch_cap.2.2 initState 0 stinv_init.2.2.2 (by decide)⟩

/-- C5: Shard mapping.  `shardCount` is 512, and `Exporter.enqueue` routes
a point with hash `h` to exactly the shard with index `h % 512`: the queue
of every other shard is untouched, and when the target queue has room the
point is appended to it. -/
theorem claim_C5_shard_mapping (st : ExpState) (h2 : Reachable st)
    (h : Nat) (p : Sample) :
    shardCount = 512 ∧
    h % shardCount < shardCount ∧
    (∀ j, j ≠ h % shardCount →
      (Exporter.enqueue st h p).chans j = st.chans j) ∧
    ((st.chans (h % shardCount)).length < shardBufferSize →
      (Exporter.enqueue st h p).chans (h % shardCount)
        = st.chans (h % shardCount) ++ [⟨h, p⟩]) := by
  obtain ⟨hs, ho, hlt, hd⟩ := stinv_reachable h2
  have hlen512 : st.shards.length = shardCount := by rw [hs, initShards_length]
  have hsd : st.shards.getD (h % st.shards.length) default
      = ⟨h % shardCount, false⟩ := by
    rw [hlen512, hs]
    exact initShards_getD (Nat.mod_lt _ (by decide))
  refine ⟨rfl, Nat.mod_lt _ (by decide), ?_, ?_⟩
  · intro j hj
    simp only [Exporter.enqueue, hsd, shard.enqueue]
    split
    · show Function.update st.chans (h % shardCount)
        (st.chans (h % shardCount) ++ [⟨h, p⟩]) j = st.chans j
      rw [Function.update_noteq hj]
    · rfl
  · intro hroom
    simp only [Exporter.enqueue, hsd, shard.enqueue]
    rw [if_pos hroom]
    show Function.update st.chans (h % shardCount)
      (st.chans (h % shardCount) ++ [⟨h, p⟩]) (h % shardCount)
      = st.chans (h % shardCount) ++ [⟨h, p⟩]
    rw [Function.update_same]

theorem claim_C5_witness :
    shardCount = 512 ∧
    7 % shardCount < shardCount ∧
    (∀ j, j ≠ 7 % shardCount →
      (Exporter.enqueue initState 7 ⟨5⟩).chans j = initState.chans j) ∧
    ((initState.chans (7 % shardCount)).length < shardBufferSize →
      (Exporter.enqueue initState 7 ⟨5⟩).chans (7 % shardCount)
        = initState.chans (7 % shardCount) ++ [⟨7, ⟨5⟩⟩]) :=
  claim_C5_shard_mapping initState Relation.ReflTransGen.refl 7 ⟨5⟩

/-- C6: Enqueue/drop semantics of `shard.enqueue`: it is a total state
function (never blocks); on every call `samples_exported_total` advances by
one; the point is dropped with `samples_dropped_total` advanced by one if
and only if the shard's queue (capacity `shardBufferSize` = 2048) is full
at the moment of the offer, and otherwise the point is appended to the
queue and nothing is dropped. -/
theorem claim_C6_enqueue_drop (st : ExpState) (h2 : Reachable st)
    (s : shard) (h : Nat) (p : Sample) :
    shardBufferSize = 2048 ∧
    (shard.enqueue st s h p).samplesExported = st.samplesExported + 1 ∧
    ((shard.enqueue st s h p).samplesDropped = st.samplesDropped + 1 ↔
      (st.chans s.queue).length = shardBufferSize) ∧
    ((st.chans s.queue).length ≠ shardBufferSize →
      (shard.enqueue st s h p).chans s.queue = st.chans s.queue ++ [⟨h, p⟩] ∧
      (shard.enqueue st s h p).samplesDropped = st.samplesDropped) ∧
    ((st.chans s.queue).length = shardBufferSize →
      (shard.enqueue st s h p).chans = st.chans) := by
  obtain ⟨hs, ho, hlt, s1, s2, s3, s4, s5⟩ := stinv_reachable h2
  have hle := s5 s.queue
  by_cases hq : (st.chans s.queue).length < shardBufferSize
  · have heq : shard.enqueue st s h p =
        { st with
          samplesExported := st.samplesExported + 1
          chans := Function.update st.chans s.queue
            (st.chans s.queue ++ [⟨h, p⟩]) } := by
      simp only [shard.enqueue]
      rw [if_pos hq]
    refine ⟨rfl, by rw [heq], ?_, ?_, ?_⟩
    · rw [heq]
      show st.samplesDropped = st.samplesDropped + 1 ↔ _
      constructor
      · intro hx; omega
      · intro hx; omega
    · intro hne
      rw [heq]
      constructor
      · show Function.update st.chans s.queue
          (st.chans s.queue ++ [⟨h, p⟩]) s.queue = st.chans s.queue ++ [⟨h, p⟩]
        rw [Function.update_same]
      · rfl
    · intro hfull
      exact absurd hfull (by omega)
  · have hfull : (st.chans s.queue).length = shardBufferSize := by omega
    have heq : shard.enqueue st s h p =
        { st with
          samplesExported := st.samplesExported + 1
          samplesDropped := st.samplesDropped + 1 } := by
      simp only [shard.enqueue]
      rw [if_neg hq]
    refine ⟨rfl, by rw [heq], ?_, ?_, ?_⟩
    · rw [heq]
      show st.samplesDropped + 1 = st.samplesDropped + 1 ↔ _
      constructor
      · intro hx; exact hfull
      · intro hx; rfl
    · intro hne; exact absurd hfull hne
    · intro hx; rw [heq]

theorem claim_C6_witness :
    shardBufferSize = 2048 ∧
    (shard.enqueue initState ⟨3, false⟩ 9 ⟨4⟩).samplesExported
      = initState.samplesExported + 1 ∧
    ((shard.enqueue initState ⟨3, false⟩ 9 ⟨4⟩).samplesDropped
        = initState.samplesDropped + 1 ↔
      (initState.chans (3 : Nat)).length = shardBufferSize) ∧
    ((initState.chans (3 : Nat)).length ≠ shardBufferSize →
      (shard.enqueue initState ⟨3, false⟩ 9 ⟨4⟩).chans (3 : Nat)
        = initState.chans (3 : Nat) ++ [⟨9, ⟨4⟩⟩] ∧
      (shard.enqueue initState ⟨3, false⟩ 9 ⟨4⟩).samplesDropped
        = initState.samplesDropped) ∧
    ((initState.chans (3 : Nat)).length = shardBufferSize →
      (shard.enqueue initState ⟨3, false⟩ 9 ⟨4⟩).chans = initState.chans) :=
  claim_C6_enqueue_drop initState Relation.ReflTransGen.refl ⟨3, false⟩ 9 ⟨4⟩

/-- C7: Send accounting.  The send goroutine body for an in-flight batch
`d` behaves identically whether or not `CreateTimeSeries` failed (a failure
is only logged): `samples_sent_total` advances by exactly `|d.batch|`,
every release callback captured for the batch is invoked, the batch leaves
the in-flight list and is appended to the backend call stream, and nothing
is re-enqueued or retried (the shard queues are untouched). -/
theorem claim_C7_send_accounting (st : ExpState) (i : Nat) (d : Dispatch)
    (hg : st.inflight.get? i = some d) :
    (∀ success : Bool, completeSend st i success = completeSend st i true) ∧
    (completeSend st i true).samplesSent = st.samplesSent + d.batch.length ∧
    (completeSend st i true).closersRun
      = st.closersRun ++ d.closers.map runCloser ∧
    (completeSend st i true).inflight = st.inflight.eraseIdx i ∧
    (completeSend st i true).completed = st.completed ++ [d] ∧
    (completeSend st i true).chans = st.chans := by
  have heq : ∀ success : Bool, completeSend st i success =
      { st with
        inflight := st.inflight.eraseIdx i
        completed := st.completed ++ [d]
        samplesSent := st.samplesSent + d.batch.length
        closersRun := st.closersRun ++ d.closers.map runCloser } := by
    intro success
    simp only [completeSend, hg]
  exact ⟨fun success => (heq success).trans (heq true).symm,
    by simp only [heq], by simp only [heq], by simp only [heq],
    by simp only [heq], by simp only [heq]⟩

theorem claim_C7_witness :
    (∀ success : Bool,
      completeSend c7base 0 success = completeSend c7base 0 true) ∧
    (completeSend c7base 0 true).samplesSent
      = c7base.samplesSent + (⟨[⟨2, ⟨9⟩⟩], [⟨2, true⟩]⟩ : Dispatch).batch.length ∧
    (completeSend c7base 0 true).closersRun
      = c7base.closersRun
        ++ (⟨[⟨2, ⟨9⟩⟩], [⟨2, true⟩]⟩ : Dispatch).closers.map runCloser ∧
    (completeSend c7base 0 true).inflight = c7base.inflight.eraseIdx 0 ∧
    (completeSend c7base 0 true).completed
      = c7base.completed ++ [⟨[⟨2, ⟨9⟩⟩], [⟨2, true⟩]⟩] ∧
    (completeSend c7base 0 true).chans = c7base.chans :=
  claim_C7_send_accounting c7base 0 ⟨[⟨2, ⟨9⟩⟩], [⟨2, true⟩]⟩ rfl

/-- C8: Timer discipline.  `batchDelayMax` is 5 seconds; the `send`
closure resets the flush timer on every send (so duplicate-triggered and
cap-triggered sends reset it too, and during a drain pass the number of
timer resets equals the number of batches dispatched); when the timer
fires with a non-empty batch exactly that batch is sent (`timerStep`
coincides with the send action), and when it fires with an empty batch no
send occurs and the timer is rearmed. -/
theorem claim_C8_timer_discipline :
    batchDelayMaxSeconds = 5 ∧
    (∀ st : ExpState, (sendAction st).timerResets = st.timerResets + 1) ∧
    (∀ st : ExpState, 0 < st.batch.length → timerStep st = sendAction st) ∧
    (∀ st : ExpState, st.batch = [] →
      timerStep st = { st with timerResets := st.timerResets + 1 }) ∧
    (∀ st : ExpState,
      (wakeStep st).timerResets + st.inflight.length
        = st.timerResets + (wakeStep st).inflight.length ∧
      (wakeStep st).completed = st.completed) := by
  refine ⟨rfl, fun st => rfl, fun st h => timerStep_send st h, ?_, ?_⟩
  · intro st h
    simp only [timerStep, h, List.length_nil, lt_irrefl, if_false]
  · intro st
    exact ⟨(wakeStep_send_accounting st).2, (wakeStep_send_accounting st).1⟩

theorem claim_C8_witness :
    (timerStep c8full = sendAction c8full) ∧
    (timerStep initState
      = { initState with timerResets := initState.timerResets + 1 }) :=
  ⟨claim_C8_timer_discipline.2.2.1 c8full (by decide),
   claim_C8_timer_discipline.2.2.2.1 initState rfl⟩

/-- C9: Counterexample to the claim as stated.  In the `c9st` run a drain
pass drained a point into the batch, yet the subsequent pass starts at the
same shard offset (`shardOffset` is still the initial 0, not rotated) and
the wake channel is not re-signaled: the outer loop of `Run` has no break,
so `i` always reaches `len(e.shards)` and `shardOffset` advances by
`512 % 512 = 0`. -/
theorem claim_C9_counterexample :
    c9st.batch ≠ [] ∧
    c9st.shardOffset = initState.shardOffset ∧
    c9st.nextc = false := by
  have hw := exportWake_single initState ⟨91⟩ rfl rfl (fun j => rfl)
    (by decide) (by decide)
  have hc9 : c9st = _ := hw
  refine ⟨?_, ?_, ?_⟩
  · rw [hc9]; decide
  · rw [hc9]
  · rw [hc9]

/-- C9 (amended): every drain pass visits all `N` = 512 shards
(`shard_process_total` advances by exactly 512), so `shardOffset` advances
by `512 ≡ 0 (mod 512)` and every pass starts at the same shard; the
`i < len(e.shards)` re-signal branch never fires, so the wake channel is
left empty after the pass. -/
theorem claim_C9_rotation_amended (st : ExpState) (h : Reachable st) :
    shardCount = 512 ∧
    (wakeStep st).shardProcess = st.shardProcess + shardCount ∧
    (wakeStep st).shardOffset = st.shardOffset ∧
    (wakeStep st).nextc = false := by
  obtain ⟨hs, ho, hlt, hd⟩ := stinv_reachable h
  have hf := wakeStep_facts st hs ho
  exact ⟨rfl, hf.2.2.1, hf.1, hf.2.1⟩

theorem claim_C9_witness :
    shardCount = 512 ∧
    (wakeStep initState).shardProcess = initState.shardProcess + shardCount ∧
    (wakeStep initState).shardOffset = initState.shardOffset ∧
    (wakeStep initState).nextc = false :=
  claim_C9_rotation_amended initState Relation.ReflTransGen.refl

/-- C10: `New` with a non-nil registry and an empty project ID returns a
nil exporter and the error "GCP project ID missing", but the six counters
have already been registered with the supplied registry before the
project-ID check runs, so the registry is mutated even on the failure
path. -/
theorem claim_C10_registry_mutated_on_failure :
    ∀ registry : List String,
      (New true "" registry).exporter = none ∧
      (New true "" registry).err = some "GCP project ID missing" ∧
      (New true "" registry).registry = registry ++ counterNames ∧
      counterNames.length = 6 := by
  intro registry
  exact ⟨rfl, rfl, rfl, rfl⟩

theorem claim_C10_witness :
    (New true "" []).exporter = none ∧
    (New true "" []).err = some "GCP project ID missing" ∧
    (New true "" []).registry = [] ++ counterNames ∧
    counterNames.length = 6 :=
  claim_C10_registry_mutated_on_failure []
